import Mathlib

/-!
Shallow embedding of the Hyde repository's lexer/parser front end.

Source text is modelled as `List Char`; JavaScript's out-of-range string
indexing (`code[i]` evaluating to `undefined`) is modelled by `List.get?`
returning `none`.  Token offsets are `Int` because the main lexer computes
`start: current - value.length` at call sites where the result is negative
(a punctuation or whitespace character at offset 0).  Loops of the source
that provably never exit are mapped to an explicit `diverge`/`noFuel`
outcome; each such mapping is justified in a comment at the definition.
-/

namespace Hyde

/-- Token kinds of the main lexer (`src/parser.js`, `TOKEN_TYPES`). -/
inductive TokType where
  | keyword | identifier | number | string | operator | punctuation
  | whitespace | comment | newline
deriving DecidableEq, Repr

/-- One token of the main lexer: `{ type, value, line, start, end }`
(`end` is a Lean keyword, so that field is `endPos`).  The lexer's
`column` counter is incremented but never read and never stored, so it
is not modelled. -/
structure Token where
  type : TokType
  value : List Char
  line : Nat
  start : Int
  endPos : Int
deriving DecidableEq, Repr

/-- The JS regex `/\s/` restricted to the ASCII range: space, tab,
newline, carriage return, vertical tab, form feed. -/
def jsWhitespace (c : Char) : Bool :=
  c = ' ' || c = '\t' || c = '\n' || c = '\r' || c = '\x0b' || c = '\x0c'

/-- The JS regex `/[0-9]/` on one character. -/
def isDigitC (c : Char) : Bool := '0' ≤ c && c ≤ '9'

/-- The JS regex `/[a-zA-Z]/` on one character. -/
def isAlphaC (c : Char) : Bool := ('a' ≤ c && c ≤ 'z') || ('A' ≤ c && c ≤ 'Z')

/-- The JS regex `/[a-zA-Z0-9]/` on one character. -/
def isAlnumC (c : Char) : Bool := isAlphaC c || isDigitC c

/-- The main lexer's `KEYWORDS` array. -/
def mainKeywords : List (List Char) :=
  ["const".toList, "let".toList, "var".toList, "function".toList,
   "return".toList, "if".toList, "else".toList, "for".toList,
   "while".toList, "switch".toList, "async".toList, "await".toList]

/-- The one-character members of the main lexer's `OPERATORS` array:
`OPERATORS.includes(char)` for a single character succeeds exactly on
these. -/
def opSingle (c : Char) : Bool :=
  ['+', '-', '*', '/', '=', '<', '>', '!', '?'].contains c

/-- The two-character members of `OPERATORS`, as pairs.
`OPERATORS.includes(value + char)` for a one-character `value` succeeds
exactly when `(value, char)` is listed here; the three-character entry
`...` can never equal a two-character concatenation, and when `char` is
`undefined` the concatenation ends in `"undefined"` and never matches. -/
def opPair (c d : Char) : Bool :=
  [('=', '='), ('!', '='), ('>', '='), ('<', '='),
   ('&', '&'), ('|', '|'), ('+', '='), ('-', '=')].contains (c, d)

/-- The main lexer's `PUNCTUATIONS` array. -/
def punctChar (c : Char) : Bool :=
  ['(', ')', '{', '}', ';', ',', '.', '[', ']'].contains c

/-- `createToken(type, value)` of the main lexer: a closure over the scan
state, reading the cursor at the moment of the call (`pushCur`), it
records `start: current - value.length, end: current`.  Note the `start`
offset is wrong (off by one, possibly `-1`) for the branches that call it
before advancing past the single consumed character. -/
def createToken (type : TokType) (value : List Char) (line : Nat) (pushCur : Nat) : Token :=
  { type := type, value := value, line := line,
    start := (pushCur : Int) - value.length, endPos := (pushCur : Int) }

/-- Result of the main lexer.  `err c` models
`throw new TypeError('Unexpected character: ' + char)` — the thrown value
carries the character but no position; `diverge` marks a scan state from
which the JS loop provably never exits; `outOfFuel` is only the model's
fuel artefact and is never produced by `tokenize`, whose fuel bound
exceeds the possible number of outer-loop iterations. -/
inductive LexResult where
  | ok (tokens : List Token)
  | err (c : Char)
  | diverge
  | outOfFuel
deriving DecidableEq, Repr

/-- The main lexer's `while (current < code.length)` loop
(`src/parser.js`, `tokenize`).  One fuel unit per outer iteration; every
iteration that recurses advances `current` by at least one.

The three `diverge` branches are the source's unbounded inner loops:

* comment: `while (char !== '\n') { value += char; char = code[++current] }`
  — past the end of the buffer `char` is `undefined`, `undefined !== '\n'`
  holds forever, so if no `'\n'` remains the loop never exits;
* string: `while (char !== quoteType)` — same shape, `undefined` never
  equals the quote character, so a missing closing quote loops forever;
* identifier: `while (/[a-zA-Z0-9]/.test(char))` — `test` stringifies its
  argument, `/[a-zA-Z0-9]/.test(undefined)` tests `"undefined"` which
  contains letters and is `true`, so a run that reaches the end of the
  buffer loops forever.  (The number loop is safe: `"undefined"` contains
  no digit, so `/[0-9]/.test(undefined)` is `false`.) -/
def tokLoop : Nat → List Char → Nat → Nat → List Token → LexResult
  | 0, _, _, _, _ => .outOfFuel
  | fuel + 1, code, current, line, acc =>
    match code.get? current with
    | none => .ok acc.reverse
    | some c =>
      if c = '\n' then
        -- `line++` happens before the push, so the token carries the new line
        tokLoop fuel code (current + 1) (line + 1)
          ({ type := .newline, value := ['\n'], line := line + 1,
             start := (current : Int), endPos := (current : Int) + 1 } :: acc)
      else if jsWhitespace c then
        -- `createToken` is called before `current++`
        tokLoop fuel code (current + 1) line
          (createToken .whitespace [c] line current :: acc)
      else if c = '/' && code.get? (current + 1) = some '/' then
        let run := (code.drop current).takeWhile (fun d => d ≠ '\n')
        if current + run.length < code.length then
          tokLoop fuel code (current + run.length) line
            (createToken .comment run line (current + run.length) :: acc)
        else .diverge
      else if isDigitC c then
        let run := (code.drop current).takeWhile isDigitC
        tokLoop fuel code (current + run.length) line
          (createToken .number run line (current + run.length) :: acc)
      else if c = '"' || c = '\'' then
        -- the value is the inner characters plus the closing quote: the
        -- opening quote is never appended
        let inner := (code.drop (current + 1)).takeWhile (fun d => d ≠ c)
        if current + 1 + inner.length < code.length then
          tokLoop fuel code (current + 1 + inner.length + 1) line
            (createToken .string (inner ++ [c]) line (current + 1 + inner.length) :: acc)
        else .diverge
      else if isAlphaC c then
        let run := (code.drop current).takeWhile isAlnumC
        if current + run.length < code.length then
          tokLoop fuel code (current + run.length) line
            (createToken (if mainKeywords.contains run then .keyword else .identifier)
              run line (current + run.length) :: acc)
        else .diverge
      else if opSingle c then
        match code.get? (current + 1) with
        | some d =>
          if opPair c d then
            tokLoop fuel code (current + 2) line
              (createToken .operator [c, d] line (current + 2) :: acc)
          else
            tokLoop fuel code (current + 1) line
              (createToken .operator [c] line (current + 1) :: acc)
        | none =>
          tokLoop fuel code (current + 1) line
            (createToken .operator [c] line (current + 1) :: acc)
      else if punctChar c then
        -- `createToken` is called before `current++`
        tokLoop fuel code (current + 1) line
          (createToken .punctuation [c] line current :: acc)
      else .err c

/-- `tokenize(code)` of `src/parser.js`.  The outer loop runs at most
`code.length` recursing iterations (each advances `current`), so
`code.length + 1` fuel always reaches a return, an error, or one of the
genuinely diverging inner loops. -/
def tokenize (code : List Char) : LexResult :=
  tokLoop (code.length + 1) code 0 1 []

/-! ## The alternate lexer, `src/unnamed/part_000` -/

/-- Token kinds of the alternate lexer (string tags
`"Newline".."Punctuation"` in the source). -/
inductive TokTypeB where
  | newline | whitespace | regex | numeric | identifier | keyword | punctuation
deriving DecidableEq, Repr

/-- A `loc` object built by `createLoc`. -/
structure Loc where
  startLine : Nat
  startColumn : Nat
  endLine : Nat
  endColumn : Nat
deriving DecidableEq, Repr

/-- One token of the alternate lexer:
`{ type, value, range: [start, end], loc }`. -/
structure TokenB where
  type : TokTypeB
  value : List Char
  rangeStart : Nat
  rangeEnd : Nat
  loc : Loc
deriving DecidableEq, Repr

/-- The alternate lexer's `keywords` array (it lacks `return` and
`switch`, unlike the main lexer's). -/
def keywordsB : List (List Char) :=
  ["let".toList, "const".toList, "var".toList, "if".toList, "else".toList,
   "while".toList, "for".toList, "function".toList, "async".toList, "await".toList]

/-- The JS regex `/[a-zA-Z_]/` on one character. -/
def isIdStartB (c : Char) : Bool := isAlphaC c || c = '_'

/-- The JS regex `/[a-zA-Z0-9_]/` on one character. -/
def isIdPartB (c : Char) : Bool := isAlnumC c || c = '_'

/-- The alternate lexer's scan loop.  Its `insideString` flag is
initialised `false` and never assigned anywhere, so the `!insideString`
guards are always true and the flag is not modelled; `insideRegex` is a
real state bit toggled by every `/`.  Both inner loops are guarded by
`current < source.length`, and every branch advances `current`, so the
function is total; `none` is fuel exhaustion, unreachable from
`tokenizeB`. -/
def tokBLoop : Nat → List Char → Nat → Nat → Nat → Bool → List TokenB → Option (List TokenB)
  | 0, _, _, _, _, _, _ => none
  | fuel + 1, source, current, line, column, insideRegex, acc =>
    match source.get? current with
    | none => some acc.reverse
    | some c =>
      if c = '\n' && !insideRegex then
        -- `addToken` runs before `line++; column = 0`; the loc's end column
        -- is `++column`, whose increment the subsequent reset discards
        tokBLoop fuel source (current + 1) (line + 1) 0 insideRegex
          ({ type := .newline, value := ['\n'], rangeStart := current,
             rangeEnd := current + 1, loc := ⟨line, column, line, column + 1⟩ } :: acc)
      else if jsWhitespace c then
        -- a '\n' seen while `insideRegex` falls through to this branch: it
        -- becomes a Whitespace token and the line counter is not advanced
        tokBLoop fuel source (current + 1) line (column + 1) insideRegex
          ({ type := .whitespace, value := [c], rangeStart := current,
             rangeEnd := current + 1, loc := ⟨line, column, line, column + 1⟩ } :: acc)
      else if c = '/' then
        tokBLoop fuel source (current + 1) line (column + 1) (!insideRegex)
          ({ type := .regex, value := [c], rangeStart := current,
             rangeEnd := current + 1, loc := ⟨line, column, line, column + 1⟩ } :: acc)
      else if isDigitC c then
        let run := (source.drop current).takeWhile isDigitC
        tokBLoop fuel source (current + run.length) line (column + run.length) insideRegex
          ({ type := .numeric, value := run, rangeStart := current,
             rangeEnd := current + run.length,
             loc := ⟨line, column, line, column + run.length⟩ } :: acc)
      else if isIdStartB c then
        let run := (source.drop current).takeWhile isIdPartB
        tokBLoop fuel source (current + run.length) line (column + run.length) insideRegex
          ({ type := if keywordsB.contains run then .keyword else .identifier,
             value := run, rangeStart := current, rangeEnd := current + run.length,
             loc := ⟨line, column, line, column + run.length⟩ } :: acc)
      else
        -- "For any other character, treat it as punctuation": the
        -- alternate lexer never fails on an unmatched character
        tokBLoop fuel source (current + 1) line (column + 1) insideRegex
          ({ type := .punctuation, value := [c], rangeStart := current,
             rangeEnd := current + 1, loc := ⟨line, column, line, column + 1⟩ } :: acc)

/-- `tokenize(source)` of `src/unnamed/part_000`: every iteration advances
`current`, so `source.length + 1` fuel always suffices. -/
def tokenizeB (source : List Char) : Option (List TokenB) :=
  tokBLoop (source.length + 1) source 0 1 0 false []

/-! ## The parser, `src/parser.js` `parse` -/

/-- AST nodes built by `parse`/`walk`.  `params` and the two body lists
hold `Option Node` because `walk` can return `null` and both collection
loops push its result unchecked.  A `funDecl`'s body object in the source
is a bare `{ type: 'BlockStatement', body }` with no position fields, so
it is kept as the plain list.  The `varDecl` constructor carries the
single `VariableDeclarator {id, init}` the source wraps in a one-element
`declarations` array, plus the hard-coded `kind`. -/
inductive Node where
  | lit (value : List Char) (line : Nat) (start endPos : Int)
  | ident (value : List Char) (line : Nat) (start endPos : Int)
  | binary (op : List Char) (left right : Node) (line : Nat) (start endPos : Int)
  | ret (argument : Option Node) (line : Nat) (start endPos : Int)
  | varDecl (kind : List Char) (id declInit : Option Node) (line : Nat) (start endPos : Int)
  | funDecl (id : Option Node) (params body : List (Option Node)) (line : Nat) (start endPos : Int)
  | block (body : List (Option Node)) (line : Nat) (start endPos : Int)
  | program (body : List Node) (line : Nat) (start endPos : Int)

/-- Membership in `skipTokens = ['WHITESPACE', 'NEWLINE', 'COMMENT']`. -/
def skipType (t : TokType) : Bool :=
  t = .whitespace || t = .newline || t = .comment

/-- The cursor after `walk`'s skip loop: the first index at or after
`current` whose token is not whitespace/newline/comment
(`tokens.length` when every remaining token is skipped, matching the
loop's `return null` after running off the end). -/
def skipFrom (tokens : List Token) (current : Nat) : Nat :=
  current + ((tokens.drop current).takeWhile (fun t => skipType t.type)).length

/-- `current < tokens.length && tokens[current]` is a punctuation token
with value `c` (the guarded lookups in the return/const branches). -/
def isPunctAt (tokens : List Token) (i : Nat) (c : Char) : Bool :=
  match tokens.get? i with
  | some t => t.type = .punctuation && t.value = [c]
  | none => false

/-- `current < tokens.length && tokens[current]` is the operator `=`. -/
def isEqAt (tokens : List Token) (i : Nat) : Bool :=
  match tokens.get? i with
  | some t => t.type = .operator && t.value = ['=']
  | none => false

/-- What one `walk()` call produces: the returned node-or-null plus the
new cursor, a thrown `TypeError` (reading `.type`/`.value` of
`undefined`, i.e. an unguarded `tokens[current]` past the end), or fuel
exhaustion (the source has no such bound: some inputs loop forever). -/
inductive WalkRes where
  | res (node : Option Node) (current : Nat)
  | jsErr
  | noFuel

/-- Outcome of the parameter-collection loop in the
function-declaration branch of `walk`. -/
inductive ParamsRes where
  | done (params : List (Option Node)) (current : Nat)
  | jsErr
  | noFuel

/-- Outcome of a body-collection loop (function declarations and block
statements): `done` carries the collected body, the cursor (left at the
closing `}`), and the final value of `walk`'s `token` variable — these
loops reassign it with `token = tokens[current]`, and the finished node
copies its `line`/`start`/`end` from that variable; `nullReturn` is the
loop's `if (current >= tokens.length) return null`. -/
inductive BodyRes where
  | done (body : List (Option Node)) (current : Nat) (tokvar : Token)
  | nullReturn (current : Nat)
  | jsErr
  | noFuel

mutual

/-- `walk()` of `src/parser.js`, with the mutable `current` cursor made
explicit.  Branches appear in source order.  Note: only the literal
keyword *values* `return`, `const` and `function` are dispatched on —
the declared `variableKeywords = ['const','let','var']` array is never
consulted, so `let`/`var` (and `if`, `else`, ...) fall through to the
final `return null`, which does not advance the cursor. -/
def walk : Nat → List Token → Nat → WalkRes
  | 0, _, _ => .noFuel
  | fuel + 1, tokens, current =>
    if current ≥ tokens.length then .res none current
    else
      let j := skipFrom tokens current
      match tokens.get? j with
      | none => .res none j
      | some tok =>
        if tok.type = .number then
          .res (some (.lit tok.value tok.line tok.start tok.endPos)) (j + 1)
        else if tok.type = .string then
          .res (some (.lit tok.value tok.line tok.start tok.endPos)) (j + 1)
        else if tok.type = .identifier then
          .res (some (.ident tok.value tok.line tok.start tok.endPos)) (j + 1)
        else if tok.type = .operator then
          match walk fuel tokens (j + 1) with
          | .res left cur2 =>
            match walk fuel tokens cur2 with
            | .res right cur3 =>
              match left, right with
              | some l, some r =>
                .res (some (.binary tok.value l r tok.line tok.start tok.endPos)) cur3
              | _, _ => .res none cur3
            | .jsErr => .jsErr
            | .noFuel => .noFuel
          | .jsErr => .jsErr
          | .noFuel => .noFuel
        else if tok.type = .keyword && tok.value = "return".toList then
          match walk fuel tokens (j + 1) with
          | .res arg cur2 =>
            let cur3 := if isPunctAt tokens cur2 ';' then cur2 + 1 else cur2
            .res (some (.ret arg tok.line tok.start tok.endPos)) cur3
          | .jsErr => .jsErr
          | .noFuel => .noFuel
        else if tok.type = .keyword && tok.value = "const".toList then
          match walk fuel tokens (j + 1) with
          | .res idn cur2 =>
            if isEqAt tokens cur2 then
              match walk fuel tokens (cur2 + 1) with
              | .res ini cur3 =>
                let cur4 := if isPunctAt tokens cur3 ';' then cur3 + 1 else cur3
                .res (some (.varDecl "const".toList idn ini tok.line tok.start tok.endPos)) cur4
              | .jsErr => .jsErr
              | .noFuel => .noFuel
            else
              let cur3 := if isPunctAt tokens cur2 ';' then cur2 + 1 else cur2
              .res (some (.varDecl "const".toList idn none tok.line tok.start tok.endPos)) cur3
          | .jsErr => .jsErr
          | .noFuel => .noFuel
        else if tok.type = .keyword && tok.value = "function".toList then
          match walk fuel tokens (j + 1) with
          | .res idn cur2 =>
            -- `current++ // Skip '('` is blind: whatever token sits at
            -- cur2 (often whitespace) is skipped
            match paramsLoop fuel tokens (cur2 + 1) [] with
            | .done params cur4 =>
              -- two more blind `current++` for `)` and `{`
              match bodyLoop fuel tokens (cur4 + 1 + 1) [] tok with
              | .done body cur6 tokvar =>
                .res (some (.funDecl idn params body tokvar.line tokvar.start tokvar.endPos))
                  (cur6 + 1)
              | .nullReturn cur6 => .res none cur6
              | .jsErr => .jsErr
              | .noFuel => .noFuel
            | .jsErr => .jsErr
            | .noFuel => .noFuel
          | .jsErr => .jsErr
          | .noFuel => .noFuel
        else if tok.type = .punctuation && tok.value = ['{'] then
          match bodyLoop fuel tokens (j + 1) [] tok with
          | .done body cur2 tokvar =>
            .res (some (.block body tokvar.line tokvar.start tokvar.endPos)) (cur2 + 1)
          | .nullReturn cur2 => .res none cur2
          | .jsErr => .jsErr
          | .noFuel => .noFuel
        else if tok.type = .punctuation &&
            (tok.value = [';'] || tok.value = [','] ||
             tok.value = ['('] || tok.value = [')']) then
          .res none (j + 1)
        else
          -- `return null` without advancing: a caller that loops on this
          -- walk (the outer parse loop, or a body loop) never progresses
          .res none j

/-- The function-branch loop
`while (tokens[current] is not ')') { params.push(walk()); if (',' here) current++ }`.
Both `tokens[current]` reads are unguarded: past the end they throw. -/
def paramsLoop : Nat → List Token → Nat → List (Option Node) → ParamsRes
  | 0, _, _, _ => .noFuel
  | fuel + 1, tokens, current, acc =>
    match tokens.get? current with
    | none => .jsErr
    | some t =>
      if t.type = .punctuation && t.value = [')'] then .done acc.reverse current
      else
        match walk fuel tokens current with
        | .res node cur2 =>
          match tokens.get? cur2 with
          | none => .jsErr
          | some t2 =>
            let cur3 := if t2.type = .punctuation && t2.value = [','] then cur2 + 1 else cur2
            paramsLoop fuel tokens cur3 (node :: acc)
        | .jsErr => .jsErr
        | .noFuel => .noFuel

/-- The body loop shared by the function and block branches:
`while (tokens[current] is not '}') { body.push(walk()); if (current >= tokens.length) return null; token = tokens[current]; }`.
The condition's `tokens[current]` read is unguarded (throws past the
end); `walk`'s result is pushed even when it is `null`. -/
def bodyLoop : Nat → List Token → Nat → List (Option Node) → Token → BodyRes
  | 0, _, _, _, _ => .noFuel
  | fuel + 1, tokens, current, acc, tokvar =>
    match tokens.get? current with
    | none => .jsErr
    | some t =>
      if t.type = .punctuation && t.value = ['}'] then .done acc.reverse current tokvar
      else
        match walk fuel tokens current with
        | .res node cur2 =>
          if cur2 ≥ tokens.length then .nullReturn cur2
          else
            match tokens.get? cur2 with
            | none => .jsErr
            | some t2 => bodyLoop fuel tokens cur2 (node :: acc) t2
        | .jsErr => .jsErr
        | .noFuel => .noFuel

end

/-- Outcome of `parse`'s outer statement loop. -/
inductive LoopRes where
  | done (body : List Node)
  | jsErr
  | noFuel

/-- `while (current < tokens.length) { const node = walk(); if (node) ast.body.push(node); }`.
When `walk` returns `null` without advancing (a `let`/`var`/`if`/...
keyword, or `}` at top level), this loop repeats the same state forever;
the model then exhausts any fuel. -/
def parseLoop : Nat → List Token → Nat → List Node → LoopRes
  | 0, _, _, _ => .noFuel
  | fuel + 1, tokens, current, acc =>
    if current < tokens.length then
      match walk (fuel + 1) tokens current with
      | .res node cur2 =>
        parseLoop fuel tokens cur2 (match node with | some n => n :: acc | none => acc)
      | .jsErr => .jsErr
      | .noFuel => .noFuel
    else .done acc.reverse

/-- Result of `parse`: the `Program` node, a thrown `TypeError`, or fuel
exhaustion (the source loops forever on such inputs). -/
inductive ParseResult where
  | ok (ast : Node)
  | jsErr
  | noFuel

/-- `parse(tokens)` of `src/parser.js`.  The `Program` literal reads
`tokens[0].line`, `tokens[0].start` and `tokens[tokens.length - 1].end`
before the loop: on an empty array `tokens[0]` is `undefined` and the
`.line` access throws. -/
def parseRun (fuel : Nat) (tokens : List Token) : ParseResult :=
  match tokens.head?, tokens.getLast? with
  | some t0, some tl =>
    match parseLoop fuel tokens 0 [] with
    | .done body => .ok (.program body t0.line t0.start tl.endPos)
    | .jsErr => .jsErr
    | .noFuel => .noFuel
  | _, _ => .jsErr

/-- The concatenation of the `value` fields of a token list, in order —
the reconstruction the spec's losslessness property talks about. -/
def concatVals : List Token → List Char
  | [] => []
  | t :: ts => t.value ++ concatVals ts

/-! ## Helper lemmas -/

theorem concatVals_append (a b : List Token) :
    concatVals (a ++ b) = concatVals a ++ concatVals b := by
  induction a with
  | nil => rfl
  | cons t ts ih => simp [concatVals, ih]

theorem drop_cons_of_get? {α : Type} (l : List α) (n : Nat) (a : α)
    (h : l.get? n = some a) : l.drop n = a :: l.drop (n + 1) := by
  induction l generalizing n with
  | nil => simp at h
  | cons x xs ih =>
    cases n with
    | zero => simp_all
    | succ m => simpa using ih m (by simpa using h)

theorem takeWhile_append_drop_length {α : Type} (p : α → Bool) (l : List α) :
    l.takeWhile p ++ l.drop (l.takeWhile p).length = l := by
  induction l with
  | nil => rfl
  | cons x xs ih =>
    by_cases h : p x
    · simp [List.takeWhile_cons, h, ih]
    · simp [List.takeWhile_cons, h]

/-- A maximal run taken from position `n` followed by the rest of the
buffer is exactly the buffer from position `n`. -/
theorem run_prepend_drop {α : Type} (p : α → Bool) (l : List α) (n : Nat) :
    (l.drop n).takeWhile p ++ l.drop (n + ((l.drop n).takeWhile p).length) = l.drop n := by
  rw [← List.drop_drop]
  exact takeWhile_append_drop_length p (l.drop n)

theorem createToken_value (type : TokType) (value : List Char) (line pushCur : Nat) :
    (createToken type value line pushCur).value = value := rfl

theorem createToken_span (type : TokType) (value : List Char) (line pushCur : Nat) :
    (createToken type value line pushCur).endPos - (createToken type value line pushCur).start
      = (value.length : Int) := by
  simp [createToken]

/-- One recursing step of `tokLoop` preserves the three facts collected by
`tokLoop_ok_props`, given that the pushed token's value is exactly the
characters consumed by the step and that its span is well-formed. -/
theorem tokLoop_step {code : List Char} {current : Nat} {acc ts : List Token}
    (tok : Token) (current' : Nat)
    (ihstep : (∀ t ∈ tok :: acc, t ∈ ts) ∧
      ((∀ t ∈ ts, t.type ≠ .string) →
        concatVals ts = concatVals (tok :: acc).reverse ++ code.drop current') ∧
      ((∀ t ∈ tok :: acc, t.endPos - t.start = (t.value.length : Int)) →
        ∀ t ∈ ts, t.endPos - t.start = (t.value.length : Int)))
    (hval : tok.value ++ code.drop current' = code.drop current)
    (hsp : tok.endPos - tok.start = (tok.value.length : Int)) :
    (∀ t ∈ acc, t ∈ ts) ∧
    ((∀ t ∈ ts, t.type ≠ .string) →
      concatVals ts = concatVals acc.reverse ++ code.drop current) ∧
    ((∀ t ∈ acc, t.endPos - t.start = (t.value.length : Int)) →
      ∀ t ∈ ts, t.endPos - t.start = (t.value.length : Int)) := by
  obtain ⟨hsub, hcat, hspan⟩ := ihstep
  refine ⟨fun t ht => hsub t (List.mem_cons_of_mem _ ht), ?_, ?_⟩
  · intro hns
    rw [hcat hns, List.reverse_cons, concatVals_append, List.append_assoc]
    simp only [concatVals, List.append_nil]
    rw [hval]
  · intro hacc
    refine hspan ?_
    intro t ht
    rcases List.mem_cons.mp ht with rfl | ht'
    · exact hsp
    · exact hacc t ht'

/-- Like `tokLoop_step`, for the string branch: there the value/consumed
correspondence fails (the opening quote is consumed but not part of the
value), but the concatenation conclusion is vacuous because the result
then contains a String token. -/
theorem tokLoop_step_string {code : List Char} {current : Nat} {acc ts : List Token}
    (tok : Token) (current' : Nat)
    (ihstep : (∀ t ∈ tok :: acc, t ∈ ts) ∧
      ((∀ t ∈ ts, t.type ≠ .string) →
        concatVals ts = concatVals (tok :: acc).reverse ++ code.drop current') ∧
      ((∀ t ∈ tok :: acc, t.endPos - t.start = (t.value.length : Int)) →
        ∀ t ∈ ts, t.endPos - t.start = (t.value.length : Int)))
    (htype : tok.type = .string)
    (hsp : tok.endPos - tok.start = (tok.value.length : Int)) :
    (∀ t ∈ acc, t ∈ ts) ∧
    ((∀ t ∈ ts, t.type ≠ .string) →
      concatVals ts = concatVals acc.reverse ++ code.drop current) ∧
    ((∀ t ∈ acc, t.endPos - t.start = (t.value.length : Int)) →
      ∀ t ∈ ts, t.endPos - t.start = (t.value.length : Int)) := by
  obtain ⟨hsub, hcat, hspan⟩ := ihstep
  refine ⟨fun t ht => hsub t (List.mem_cons_of_mem _ ht), ?_, ?_⟩
  · intro hns
    exact absurd htype (hns tok (hsub tok (List.mem_cons_self _ _)))
  · intro hacc
    refine hspan ?_
    intro t ht
    rcases List.mem_cons.mp ht with rfl | ht'
    · exact hsp
    · exact hacc t ht'

/-- The three facts a successful `tokLoop` run guarantees: the
accumulator's tokens survive into the result; if no String token was
emitted, the concatenated values equal the accumulator's values plus the
unscanned suffix of the buffer; and well-formed spans are preserved. -/
theorem tokLoop_ok_props (fuel : Nat) :
    ∀ (code : List Char) (current line : Nat) (acc ts : List Token),
      tokLoop fuel code current line acc = .ok ts →
      (∀ t ∈ acc, t ∈ ts) ∧
      ((∀ t ∈ ts, t.type ≠ .string) →
        concatVals ts = concatVals acc.reverse ++ code.drop current) ∧
      ((∀ t ∈ acc, t.endPos - t.start = (t.value.length : Int)) →
        ∀ t ∈ ts, t.endPos - t.start = (t.value.length : Int)) := by
  induction fuel with
  | zero => intro code current line acc ts h; simp [tokLoop] at h
  | succ n ih =>
    intro code current line acc ts h
    rw [tokLoop] at h
    cases hget : code.get? current with
    | none =>
      simp only [hget] at h
      injection h with h
      subst h
      refine ⟨fun t ht => List.mem_reverse.mpr ht, ?_, ?_⟩
      · intro _
        have : code.drop current = [] :=
          List.drop_eq_nil_of_le (List.get?_eq_none.mp hget)
        simp [this]
      · intro hacc t ht
        exact hacc t (List.mem_reverse.mp ht)
    | some c =>
      simp only [hget] at h
      split_ifs at h with h1 h2 h3 h4 h5 h6 h7 h8 h9 h10
      · -- newline
        refine tokLoop_step _ _ (ih _ _ _ _ _ h) ?_ (by simp)
        rw [drop_cons_of_get? code current c hget, h1]
        rfl
      · -- whitespace
        refine tokLoop_step _ _ (ih _ _ _ _ _ h) ?_ (createToken_span ..)
        rw [drop_cons_of_get? code current c hget]
        rfl
      · -- comment (a newline was found)
        exact tokLoop_step _ _ (ih _ _ _ _ _ h)
          (run_prepend_drop (fun d => d ≠ '\n') code current) (createToken_span ..)
      · -- number
        exact tokLoop_step _ _ (ih _ _ _ _ _ h)
          (run_prepend_drop isDigitC code current) (createToken_span ..)
      · -- string (closing quote found): the value drops the opening quote
        exact tokLoop_step_string _ _ (ih _ _ _ _ _ h) rfl (createToken_span ..)
      · -- keyword (identifier run listed in `mainKeywords`)
        exact tokLoop_step _ _ (ih _ _ _ _ _ h)
          (run_prepend_drop isAlnumC code current) (createToken_span ..)
      · -- identifier
        exact tokLoop_step _ _ (ih _ _ _ _ _ h)
          (run_prepend_drop isAlnumC code current) (createToken_span ..)
      · -- operator
        cases hd : code.get? (current + 1) with
        | none =>
          simp only [hd] at h
          refine tokLoop_step _ _ (ih _ _ _ _ _ h) ?_ (createToken_span ..)
          rw [drop_cons_of_get? code current c hget]
          rfl
        | some d =>
          simp only [hd] at h
          split_ifs at h with hp
          · refine tokLoop_step _ _ (ih _ _ _ _ _ h) ?_ (createToken_span ..)
            rw [drop_cons_of_get? code current c hget,
              drop_cons_of_get? code (current + 1) d hd]
            rfl
          · refine tokLoop_step _ _ (ih _ _ _ _ _ h) ?_ (createToken_span ..)
            rw [drop_cons_of_get? code current c hget]
            rfl
      · -- punctuation
        refine tokLoop_step _ _ (ih _ _ _ _ _ h) ?_ (createToken_span ..)
        rw [drop_cons_of_get? code current c hget]
        rfl

/-- One scan step of the main lexer on a character that matches no
lexical rule: not a newline, not whitespace, not a digit, not a quote,
not an identifier start, not a single-character operator (hence not `/`,
so not a comment start either) and not punctuation.  The scan stops with
`err c` — the model of `throw new TypeError('Unexpected character: ' + char)`,
which carries the character but no position. -/
theorem tokLoop_unexpected_char (fuel : Nat) (code : List Char) (current line : Nat)
    (acc : List Token) (c : Char) (hget : code.get? current = some c)
    (h1 : c ≠ '\n') (h2 : jsWhitespace c = false) (h3 : isDigitC c = false)
    (h4 : c ≠ '"') (h5 : c ≠ '\'') (h6 : isAlphaC c = false)
    (h7 : opSingle c = false) (h8 : punctChar c = false) :
    tokLoop (fuel + 1) code current line acc = .err c := by
  have hslash : c ≠ '/' := by
    intro hc
    subst hc
    exact absurd h7 (by decide)
  rw [tokLoop, hget]
  simp [h1, h2, h3, h4, h5, h6, h7, h8, hslash]

/-- Every token the alternate lexer accumulates has
`range end - range start = value length`, and a successful run preserves
that into the result. -/
theorem tokBLoop_span (fuel : Nat) :
    ∀ (source : List Char) (current line column : Nat) (insideRegex : Bool)
      (acc ts : List TokenB),
      tokBLoop fuel source current line column insideRegex acc = some ts →
      (∀ t ∈ acc, t.rangeEnd - t.rangeStart = t.value.length) →
      ∀ t ∈ ts, t.rangeEnd - t.rangeStart = t.value.length := by
  induction fuel with
  | zero => intro source current line column insideRegex acc ts h; simp [tokBLoop] at h
  | succ n ih =>
    intro source current line column insideRegex acc ts h hacc
    rw [tokBLoop] at h
    cases hget : source.get? current with
    | none =>
      simp only [hget] at h
      injection h with h
      subst h
      intro t ht
      exact hacc t (List.mem_reverse.mp ht)
    | some c =>
      simp only [hget] at h
      split_ifs at h <;>
        refine ih _ _ _ _ _ _ _ h ?_ <;>
        intro t ht <;>
        rcases List.mem_cons.mp ht with rfl | ht' <;>
        first
        | simp
        | exact hacc t ht'

/-! ## The claims -/

/-- C1 (counterexample): the losslessness claim is false as stated.
`tokenize("'a'")` succeeds, but its single String token has value `a'`
— the opening quote is never appended to `value` — so the concatenation
of token values is `a'`, not the source `'a'`. -/
theorem tokenize_concat_counterexample :
    tokenize "'a'".toList = .ok [⟨.string, ['a', '\''], 1, 0, 2⟩] ∧
    concatVals [⟨.string, ['a', '\''], 1, 0, 2⟩] ≠ "'a'".toList :=
  ⟨rfl, by decide⟩

/-- C1 (amended): on every source on which `tokenize` returns a token
sequence containing no String token, concatenating every token's `value`
in order reconstructs the source exactly (whitespace, newlines, comments
included); each String token instead omits its opening quote. -/
theorem tokenize_concat_of_no_string (code : List Char) (ts : List Token)
    (h : tokenize code = .ok ts) (hns : ∀ t ∈ ts, t.type ≠ .string) :
    concatVals ts = code := by
  have hp := (tokLoop_ok_props (code.length + 1) code 0 1 [] ts h).2.1 hns
  simpa [concatVals] using hp

/-- C1 (witness): the amended theorem applied to the source `1+2;`. -/
theorem tokenize_concat_of_no_string_witness :
    concatVals [⟨.number, ['1'], 1, 0, 1⟩, ⟨.operator, ['+'], 1, 1, 2⟩,
      ⟨.number, ['2'], 1, 2, 3⟩, ⟨.punctuation, [';'], 1, 2, 3⟩] = "1+2;".toList :=
  tokenize_concat_of_no_string "1+2;".toList _ rfl (by decide)

/-- C2 (code bug): neither pass is bounded.  Tokenizing `//x`, a comment
that reaches end of input without a newline, never terminates (the
comment loop reads `undefined` past the buffer forever; modelled
`diverge`), and `parse` on the tokens of `let ` loops forever (the
`walk` fallthrough returns `null` without advancing the cursor, so the
outer statement loop repeats the same state; every amount of fuel is
exhausted). -/
theorem tokenize_comment_eof_and_parse_let_diverge :
    tokenize "//x".toList = .diverge ∧
    tokenize "let ".toList =
      .ok [⟨.keyword, "let".toList, 1, 0, 3⟩, ⟨.whitespace, [' '], 1, 2, 3⟩] ∧
    ∀ fuel : Nat, parseRun fuel
      [⟨.keyword, "let".toList, 1, 0, 3⟩, ⟨.whitespace, [' '], 1, 2, 3⟩] = .noFuel := by
  refine ⟨rfl, rfl, ?_⟩
  intro fuel
  induction fuel with
  | zero => rfl
  | succ n ih => exact ih

/-- C3 (code bug): `tokenize("'abc")` does not fail with
`UnterminatedString` at offset 0 — no such error exists in the code.
The string loop scans past the end of the buffer forever (reading
`undefined`, which never equals the quote character), so the call never
returns (modelled `diverge`). -/
theorem tokenize_unterminated_string_diverges :
    tokenize "'abc".toList = .diverge := rfl

/-- C4 (counterexample): a token stream that ends while a binary operator
still expects its two operands does not make `parse` fail — `walk`
returns `null`, the outer loop drops it, and `parse` returns a partial
`Program` with an empty body and no error of any kind. -/
theorem parse_missing_operand_counterexample :
    parseRun 100 [⟨.operator, ['+'], 1, 0, 1⟩] = .ok (.program [] 1 0 1) := rfl

/-- C4 (amended): when the stream ends while a construct expects more
tokens, `parse` never produces a ParseError with a position.  It either
silently drops the construct and returns a partial `Program` (binary
operator with no operands), or throws a bare `TypeError` by reading past
the token array (unmatched `{` at end of input); and a body list can
receive a `null` placeholder during normal parsing (here: the `;` inside
`{x;}` makes `walk` return `null`, which the block loop pushes). -/
theorem parse_eof_null_behavior :
    parseRun 100 [⟨.operator, ['+'], 1, 0, 1⟩] = .ok (.program [] 1 0 1) ∧
    parseRun 100 [⟨.punctuation, ['{'], 1, -1, 0⟩] = .jsErr ∧
    (∃ ts, tokenize "{x;}".toList = .ok ts ∧
      parseRun 100 ts =
        .ok (.program [.block [some (.ident ['x'] 1 1 2), none] 1 2 3] 1 (-1) 3)) :=
  ⟨rfl, rfl, _, rfl, rfl⟩

/-- C5 (counterexample): the alternate lexer never fails on a character
matching no lexical rule — its final branch treats any other character
as punctuation.  On `@` it silently returns a Punctuation token instead
of an UnexpectedCharacter error. -/
theorem tokenizeB_unexpected_char_counterexample :
    tokenizeB ['@'] = some [⟨.punctuation, ['@'], 0, 1, ⟨1, 0, 1, 1⟩⟩] := rfl

/-- C5 (amended): in the main lexer, a scanned character matching no
lexical rule stops the scan with an error carrying that character — but
not its position (the thrown `TypeError` message contains only the
character); the alternate lexer instead silently emits a Punctuation
token for such characters. -/
theorem tokenize_unexpected_char_err (fuel : Nat) (code : List Char) (current line : Nat)
    (acc : List Token) (c : Char) (hget : code.get? current = some c)
    (h1 : c ≠ '\n') (h2 : jsWhitespace c = false) (h3 : isDigitC c = false)
    (h4 : c ≠ '"') (h5 : c ≠ '\'') (h6 : isAlphaC c = false)
    (h7 : opSingle c = false) (h8 : punctChar c = false) :
    tokLoop (fuel + 1) code current line acc = .err c :=
  tokLoop_unexpected_char fuel code current line acc c hget h1 h2 h3 h4 h5 h6 h7 h8

/-- C5 (witness): the amended theorem applied at the source `@`,
discharging every hypothesis by computation. -/
theorem tokenize_unexpected_char_err_witness :
    tokLoop 1 ['@'] 0 1 [] = .err '@' :=
  tokenize_unexpected_char_err 0 ['@'] 0 1 [] '@' rfl (by decide) (by decide)
    (by decide) (by decide) (by decide) (by decide) (by decide) (by decide)

/-- C6 (counterexample): on the claim's exact input
`function add(a, b) { return a; }` the parser returns a `Program` with an
*empty* body — no FunctionDeclaration at all.  The blind
`current++ // Skip '{'` lands on the whitespace before `{`, the `{`
is then parsed as a nested block which consumes the closing `}`, and the
function branch's body loop hits end of input and returns `null`,
discarding the whole declaration. -/
theorem parse_function_declaration_counterexample :
    ∃ ts, tokenize "function add(a, b) { return a; }".toList = .ok ts ∧
      parseRun 100 ts = .ok (.program [] 1 0 31) :=
  ⟨_, rfl, rfl⟩

/-- C6 (amended): with no blank between `)` and `{` (and none inside the
parameter list after `,`... the source `function add(a,b){return a;}`),
the blind skips line up and `parse(tokenize(...))` does return a
FunctionDeclaration whose id is `add`, whose params are exactly the
identifiers `a` and `b`, and whose body holds exactly one
ReturnStatement with argument `Identifier("a")`; the node's span is
copied from the closing `}` token. -/
theorem parse_function_declaration_nospace :
    ∃ ts, tokenize "function add(a,b){return a;}".toList = .ok ts ∧
      parseRun 100 ts = .ok (.program
        [.funDecl (some (.ident "add".toList 1 9 12))
          [some (.ident ['a'] 1 13 14), some (.ident ['b'] 1 15 16)]
          [some (.ret (some (.ident ['a'] 1 25 26)) 1 18 24)]
          1 26 27] 1 0 27) :=
  ⟨_, rfl, rfl⟩

/-- C7 (counterexample): `parse(tokenize("const x = 42;"))` yields one
VariableDeclaration whose declarator has `init = null`, not
`Literal("42")`: the `=` check reads the token right after the
identifier without skipping whitespace, finds a Whitespace token, and
never consumes the initializer.  (`42` is then swallowed by a separate
discarded expression.) -/
theorem parse_const_declaration_counterexample :
    (∃ ts, tokenize "const x = 42;".toList = .ok ts ∧
      parseRun 100 ts = .ok (.program
        [.varDecl "const".toList (some (.ident ['x'] 1 6 7)) none 1 0 5] 1 0 12)) ∧
    (none : Option Node) ≠ some (.lit "42".toList 1 8 10) :=
  ⟨⟨_, rfl, rfl⟩, nofun⟩

/-- C7 (amended): only the keyword `const` is handled (the declared
`variableKeywords` list with `let` and `var` is never consulted; a
`let`/`var` token makes `walk` return `null` without advancing, hanging
the parser), and the `=` must immediately follow the identifier token.
On `const x=42;` the parser returns a VariableDeclaration with
`kind = const`, one declarator with id `Identifier("x")` and init
`Literal("42")`. -/
theorem parse_const_declaration_nospace :
    ∃ ts, tokenize "const x=42;".toList = .ok ts ∧
      parseRun 100 ts = .ok (.program
        [.varDecl "const".toList (some (.ident ['x'] 1 6 7))
          (some (.lit "42".toList 1 8 10)) 1 0 5] 1 0 10) :=
  ⟨_, rfl, rfl⟩

/-- C8 (counterexample): node spans do not run from the first to the
last consumed token.  In `parse(tokenize("+ 1 2"))` the BinaryExpression
consumes the operator token (span `[0,1)`) and both literals (the last
ending at offset 5), yet the node's span is `start = 0, end = 1` — its
`end` (1) is not the end of the last consumed token (5), and the node
does not even enclose its own right child `Literal("2")` with span
`[4,5)`. -/
theorem node_span_counterexample :
    (∃ ts, tokenize "+ 1 2".toList = .ok ts ∧
      parseRun 100 ts = .ok (.program
        [.binary ['+'] (.lit ['1'] 1 2 3) (.lit ['2'] 1 4 5) 1 0 1] 1 0 5)) ∧
    (1 : Int) ≠ 5 :=
  ⟨⟨_, rfl, rfl⟩, by decide⟩

/-- C8 (amended): every node's `line`/`start`/`end` are copied from one
single token: the node's leading significant token for literals,
identifiers, binary expressions, return statements and declarations
(so `end` is the *leading* token's end), and for function declarations
and blocks the token last stored by the body loop — the closing `}`.
Shown on `+ 1 2` (BinaryExpression carries exactly the `+` token's span
`[0,1)`) and `function f(){return 1;}` (FunctionDeclaration carries the
`}` token's span `[21,22)`). -/
theorem node_span_from_single_token :
    (∃ ts, tokenize "+ 1 2".toList = .ok ts ∧
      parseRun 100 ts = .ok (.program
        [.binary ['+'] (.lit ['1'] 1 2 3) (.lit ['2'] 1 4 5) 1 0 1] 1 0 5)) ∧
    (∃ ts, tokenize "function f(){return 1;}".toList = .ok ts ∧
      parseRun 100 ts = .ok (.program
        [.funDecl (some (.ident ['f'] 1 9 10)) []
          [some (.ret (some (.lit ['1'] 1 20 21)) 1 13 19)]
          1 21 22] 1 0 22)) :=
  ⟨⟨_, rfl, rfl⟩, ⟨_, rfl, rfl⟩⟩

/-- C9 (code bug): `tokenize("")` does return an empty token sequence,
but `parse([])` does not return an empty `Program` — building the
`Program` literal reads `tokens[0].line` on an empty array, a property
access on `undefined` that throws a `TypeError` for every fuel. -/
theorem tokenize_empty_and_parse_empty :
    tokenize [] = .ok [] ∧ ∀ fuel : Nat, parseRun fuel [] = .jsErr :=
  ⟨rfl, fun _ => rfl⟩

/-- C10 (confirmed): whenever either lexer variant returns normally,
every emitted token's end offset minus start offset equals the length of
its `value` — in the main lexer because `createToken` computes
`start := current - value.length` against the same cursor as
`end := current` (newline tokens use explicit `current`/`current + 1`),
and in the alternate lexer because every `addToken` call site passes a
range whose width is the consumed run's length. -/
theorem token_span_matches_value_length :
    (∀ (code : List Char) (ts : List Token), tokenize code = .ok ts →
      ∀ t ∈ ts, t.endPos - t.start = (t.value.length : Int)) ∧
    (∀ (source : List Char) (ts : List TokenB), tokenizeB source = some ts →
      ∀ t ∈ ts, t.rangeEnd - t.rangeStart = t.value.length) := by
  constructor
  · intro code ts h
    exact (tokLoop_ok_props (code.length + 1) code 0 1 [] ts h).2.2 (by simp)
  · intro source ts h
    exact tokBLoop_span (source.length + 1) source 0 1 0 false [] ts h (by simp)

end Hyde
